import Mathlib

/-!
Verification development for the SnipeTrackerHL targeting/risk/execution core.

The TypeScript core is shallowly embedded:
* JS `number` values are modelled as exact rationals (ℚ); timestamps as ℤ.
* JS `Map` objects are modelled as association lists with first-match lookup.
* `Date.now()` is made an explicit `now : ℤ` parameter.
* Async control flow (`executeWithRetry`, `executeOrders`) is modelled as
  pure state-passing; the exchange collaborator is a parameter giving the
  outcome of each attempt.
-/

/-! ## Data model (src/core/positionModel.ts) -/

/-- Order side: `'buy' | 'sell'`. -/
inductive OrderSide where
  | buy
  | sell
deriving DecidableEq

/-- Time in force: `'IOC' | 'GTC'`. -/
inductive TimeInForce where
  | IOC
  | GTC
deriving DecidableEq

/-- Perpetual position. Only the fields read by the verified core are kept
(`coin`, `size`, `marginUsed`); the other optional display fields are never
read by Targeting/RiskEngine/Executor. -/
structure Position where
  coin : String
  size : ℚ
  marginUsed : Option ℚ := none
  updatedAt : ℤ := 0
deriving DecidableEq

/-- Order request to be sent to the exchange. -/
structure OrderRequest where
  coin : String
  side : OrderSide
  size : ℚ
  tif : TimeInForce
  reduceOnly : Bool
  price : Option ℚ := none
deriving DecidableEq

/-- Order result from the exchange. -/
structure OrderResult where
  success : Bool
  orderId : Option String := none
  filledSize : Option ℚ := none
  avgPrice : Option ℚ := none
  error : Option String := none
deriving DecidableEq

/-- Market data entry as consulted by the Executor (`markPrice`, `lastPrice`). -/
structure MarketEntry where
  markPrice : ℚ
  lastPrice : ℚ
deriving DecidableEq

/-! ## JS truthiness helpers

`a || b` on a possibly-absent string/number is "use `b` when `a` is absent or
falsy" (empty string, `0`). -/

/-- JS `s || d` for an optional string (`none` and `""` are falsy). -/
def strOr (v : Option String) (d : String) : String :=
  match v with
  | some s => if s = "" then d else s
  | none => d

/-- JS `q || d` for an optional number (`none` and `0` are falsy). -/
def qOr (v : Option ℚ) (d : ℚ) : ℚ :=
  match v with
  | some q => if q = 0 then d else q
  | none => d

/-- JS `Math.abs`, embedded as a computable function on ℚ (Mathlib's lattice
`|·|` does not reduce in the kernel). -/
def mathAbs (q : ℚ) : ℚ :=
  if q < 0 then -q else q

/-- `mathAbs` agrees with the mathematical absolute value. -/
lemma mathAbs_eq_abs (q : ℚ) : mathAbs q = |q| := by
  unfold mathAbs
  split
  · next h => rw [abs_of_neg h]
  · next h => rw [abs_of_nonneg (not_lt.mp h)]

/-! ## Substring containment (used to state the "reason contains ..." claims) -/

/-- Leading match: `pat` occurs at the head of `s`. -/
def leadMatch : List Char → List Char → Bool
  | [], _ => true
  | _ :: _, [] => false
  | c :: p, d :: s => c == d && leadMatch p s

/-- `pat` occurs somewhere in `s`. -/
def hasSub (pat : List Char) : List Char → Bool
  | [] => leadMatch pat []
  | c :: s => leadMatch pat (c :: s) || hasSub pat s

/-- String containment: `pat` is a contiguous substring of `s`. -/
def strHas (s pat : String) : Bool :=
  hasSub pat.data s.data

/-! ## Targeting (src/core/targeting.ts) -/

/-- PositionTarget represents the desired position state. -/
structure PositionTarget where
  coin : String
  targetSize : ℚ
  currentSize : ℚ
  delta : ℚ
deriving DecidableEq

namespace Targeting

/-- `calculateTarget(leaderSize, currentFollowerSize, ratio)`. -/
def calculateTarget (leaderSize currentFollowerSize rat : ℚ) : PositionTarget :=
  let targetSize := leaderSize * rat
  let delta := targetSize - currentFollowerSize
  { coin := "", targetSize := targetSize, currentSize := currentFollowerSize, delta := delta }

/-- The `m.get(coin)?.size || 0` read performed by `computeTargets`. -/
def mapGetSize (m : List (String × Position)) (coin : String) : ℚ :=
  qOr ((m.lookup coin).map Position.size) 0

/-- `computeTargets(aggregatedLeader, followerPositions, ratio)`: iterate the
union of the two key sets, compute each target, keep those with
`|delta| > 0.0001`. -/
def computeTargets (aggregatedLeader followerPositions : List (String × Position))
    (rat : ℚ) : List PositionTarget :=
  let allCoins := (aggregatedLeader.map Prod.fst ++ followerPositions.map Prod.fst).dedup
  allCoins.filterMap fun coin =>
    let leaderSize := mapGetSize aggregatedLeader coin
    let currentFollowerSize := mapGetSize followerPositions coin
    let target : PositionTarget := { calculateTarget leaderSize currentFollowerSize rat with coin := coin }
    if mathAbs target.delta > 1/10000 then some target else none

/-- `isReducingPosition(currentSize, targetSize)`. -/
def isReducingPosition (currentSize targetSize : ℚ) : Bool :=
  if currentSize > 0 then decide (targetSize < currentSize)
  else if currentSize < 0 then decide (targetSize > currentSize)
  else false

/-- The chunking `while (remainingSize > 0.0001)` loop of `generateOrders`,
with an explicit fuel argument bounding the number of iterations (the source
loop terminates because each iteration removes `min(remaining, maxSizePerOrder)`;
`generateOrders` below supplies sufficient fuel). -/
def chunkSizes (remaining maxSizePerOrder : ℚ) : ℕ → List ℚ
  | 0 => []
  | fuel + 1 =>
    if remaining > 1/10000 then
      let chunkSize := min remaining maxSizePerOrder
      chunkSize :: chunkSizes (remaining - chunkSize) maxSizePerOrder fuel
    else []

/-- `generateOrders(target, markPrice, notionalCap, tif)`. -/
def generateOrders (target : PositionTarget) (markPrice notionalCap : ℚ)
    (tif : TimeInForce) : List OrderRequest :=
  let side : OrderSide := if target.delta > 0 then .buy else .sell
  let sizeToTrade := mathAbs target.delta
  let isReducing := isReducingPosition target.currentSize target.targetSize
  let mkOrder : ℚ → OrderRequest := fun sz =>
    { coin := target.coin, side := side, size := sz, tif := tif, reduceOnly := isReducing }
  if notionalCap ≤ 0 then
    [mkOrder sizeToTrade]
  else
    let maxSizePerOrder := notionalCap / markPrice
    if sizeToTrade ≤ maxSizePerOrder then
      [mkOrder sizeToTrade]
    else
      (chunkSizes sizeToTrade maxSizePerOrder (Nat.ceil (sizeToTrade / maxSizePerOrder))).map mkOrder

end Targeting

/-! ## RiskEngine (src/core/riskEngine.ts) -/

/-- Risk check result. -/
structure RiskCheckResult where
  allowed : Bool
  reason : Option String := none
deriving DecidableEq

/-- Circuit breaker state. -/
structure CircuitBreakerState where
  errorCount : ℕ
  windowStart : ℤ
deriving DecidableEq

/-- Full mutable state of a `RiskEngine` instance. -/
structure RiskEngineState where
  maxLeverage : ℚ
  maxTotalNotional : ℚ
  cooldownMs : ℤ
  panicMode : Bool
  autoTradingDisabled : Bool
  lastExecByCoin : List (String × ℤ)
  circuitBreaker : CircuitBreakerState
deriving DecidableEq

namespace RiskEngine

/-- `circuitBreakerErrorThreshold = 5`. -/
def circuitBreakerErrorThreshold : ℕ := 5

/-- `circuitBreakerWindowMs = 5 * 60 * 1000`. -/
def circuitBreakerWindowMs : ℤ := 5 * 60 * 1000

/-- The `this.lastExecByCoin.get(coin) || 0` read of `checkOrder`. -/
def lastExecOf (st : RiskEngineState) (coin : String) : ℤ :=
  ((st.lastExecByCoin.lookup coin).getD 0)

/-- The reason string of a cooldown rejection. -/
def cooldownReason (coin : String) (remainingMs : ℤ) : String :=
  "Cooldown active for " ++ coin ++ " (" ++ toString remainingMs ++ "ms remaining)"

/-- The `RiskCheckResult` produced when the cooldown check fires. -/
def cooldownRejection (st : RiskEngineState) (order : OrderRequest) (now : ℤ) : RiskCheckResult :=
  { allowed := false,
    reason := some (cooldownReason order.coin (st.cooldownMs - (now - lastExecOf st order.coin))) }

/-- `checkOrder(order, currentPositions, currentTotalNotional, markPrice)`,
with `Date.now()` passed as `now`. The five checks run in source order:
panic, circuit breaker, cooldown, total notional, leverage. The `toFixed(2)`
formatting of the source's reason strings is abstracted to `toString`. -/
def checkOrder (st : RiskEngineState) (order : OrderRequest)
    (currentPositions : List Position) (currentTotalNotional markPrice : ℚ)
    (now : ℤ) : RiskCheckResult :=
  if st.panicMode && !order.reduceOnly then
    { allowed := false, reason := some "PANIC mode active - only reduce-only orders allowed" }
  else if st.autoTradingDisabled && !order.reduceOnly then
    { allowed := false, reason := some "Auto-trading disabled by circuit breaker" }
  else
    let lastExec := lastExecOf st order.coin
    let timeSinceLastExec := now - lastExec
    if timeSinceLastExec < st.cooldownMs then
      { allowed := false,
        reason := some (cooldownReason order.coin (st.cooldownMs - timeSinceLastExec)) }
    else if !order.reduceOnly &&
        decide (currentTotalNotional + order.size * markPrice > st.maxTotalNotional) then
      { allowed := false,
        reason := some ("Max total notional exceeded: "
          ++ toString (currentTotalNotional + order.size * markPrice)
          ++ " > " ++ toString st.maxTotalNotional) }
    else if !order.reduceOnly then
      let currentPosition := currentPositions.find? fun p => p.coin == order.coin
      let currentSize := qOr (currentPosition.map Position.size) 0
      let newSize := if order.side == .buy then currentSize + order.size
                     else currentSize - order.size
      let newNotional := mathAbs newSize * markPrice
      let marginUsed := qOr (currentPosition.bind Position.marginUsed)
        (newNotional / st.maxLeverage)
      let projectedLeverage := newNotional / marginUsed
      if projectedLeverage > st.maxLeverage then
        { allowed := false,
          reason := some ("Max leverage exceeded for " ++ order.coin ++ ": "
            ++ toString projectedLeverage ++ " > " ++ toString st.maxLeverage) }
      else { allowed := true }
    else { allowed := true }

/-- `recordExecution(coin)` sets `lastExecByCoin[coin] = Date.now()`. -/
def recordExecution (st : RiskEngineState) (coin : String) (now : ℤ) : RiskEngineState :=
  { st with lastExecByCoin :=
      (coin, now) :: st.lastExecByCoin.filter fun p => !(p.1 == coin) }

/-- `recordError()`: roll the 5-minute window, increment the count, trip the
breaker at the threshold. -/
def recordError (st : RiskEngineState) (now : ℤ) : RiskEngineState :=
  let cb0 := if now - st.circuitBreaker.windowStart > circuitBreakerWindowMs
             then { errorCount := 0, windowStart := now }
             else st.circuitBreaker
  let cb : CircuitBreakerState := { cb0 with errorCount := cb0.errorCount + 1 }
  { st with
    circuitBreaker := cb,
    autoTradingDisabled :=
      if cb.errorCount ≥ circuitBreakerErrorThreshold then true else st.autoTradingDisabled }

/-- `resetCircuitBreaker()`. -/
def resetCircuitBreaker (st : RiskEngineState) (now : ℤ) : RiskEngineState :=
  { st with
    autoTradingDisabled := false,
    circuitBreaker := { errorCount := 0, windowStart := now } }

end RiskEngine

/-! ## Executor (src/core/executor.ts) -/

/-- Outcome of one `placeOrder` attempt: the promise either resolved with an
`OrderResult` or threw with a message. -/
inductive AttemptOutcome where
  | returned (r : OrderResult)
  | thrown (msg : String)
deriving DecidableEq

/-- Trace of `executeWithRetry`: the surfaced result, the backoff delays
actually waited (in ms, in order), and the number of attempts made. -/
structure RetryTrace where
  result : OrderResult
  delays : List ℕ
  attempts : ℕ
deriving DecidableEq

namespace Executor

/-- `maxRetries = 3`. -/
def maxRetries : ℕ := 3

/-- `retryDelayMs = 1000`. -/
def retryDelayMs : ℕ := 1000

/-- Bookkeeping common to both failure arms of the retry loop: count this
attempt and, unless it was the final one (`remaining = 0`), wait
`retryDelayMs * 2^(attempt-1)` before the recursion's attempts. -/
def retryFailStep (rest : RetryTrace) (attempt remaining : ℕ) : RetryTrace :=
  if remaining = 0 then ⟨rest.result, rest.delays, rest.attempts + 1⟩
  else ⟨rest.result, retryDelayMs * 2 ^ (attempt - 1) :: rest.delays, rest.attempts + 1⟩

/-- The `for (attempt = 1; attempt <= maxRetries; ...)` loop of
`executeWithRetry`; `remaining + 1` is the number of attempts still allowed,
`lastError` the accumulator of the source's `lastError` variable. -/
def executeWithRetryAux (behavior : ℕ → AttemptOutcome) :
    ℕ → ℕ → String → RetryTrace
  | _, 0, lastError =>
    ⟨{ success := false,
       error := some (if lastError = "" then "Max retries exceeded" else lastError) }, [], 0⟩
  | attempt, remaining + 1, _ =>
    match behavior attempt with
    | .returned r =>
      if r.success then ⟨r, [], 1⟩
      else retryFailStep
        (executeWithRetryAux behavior (attempt + 1) remaining (strOr r.error "Unknown error"))
        attempt remaining
    | .thrown m =>
      retryFailStep
        (executeWithRetryAux behavior (attempt + 1) remaining
          (if m = "" then "Unknown error" else m))
        attempt remaining

/-- `executeWithRetry(order)`, abstracted over the behavior of the exchange
collaborator on each attempt (attempt numbers start at 1). -/
def executeWithRetry (behavior : ℕ → AttemptOutcome) : RetryTrace :=
  executeWithRetryAux behavior 1 maxRetries ""

/-- Collapse a thrown exception into a returned non-success result carrying
the same message (the two failure modes of an attempt). -/
def collapseOutcome : AttemptOutcome → AttemptOutcome
  | .thrown m => .returned { success := false, error := some m }
  | .returned r => .returned r

/-- Effective failure message of an attempt outcome (`none` when the attempt
succeeded): the string the retry loop stores into `lastError`. -/
def effMsg : AttemptOutcome → Option String
  | .returned r => if r.success then none else some (strOr r.error "Unknown error")
  | .thrown m => some (if m = "" then "Unknown error" else m)

/-- Execution counters of the Executor instance. -/
structure Counters where
  execCount : ℕ
  rejectCount : ℕ
  errorCount : ℕ
deriving DecidableEq

/-- ExecutionResult of one `executeOrders` call. Rejected orders are kept as
(order, reason) pairs. -/
structure ExecutionResult where
  success : Bool
  executedOrders : List OrderResult
  rejectedOrders : List (OrderRequest × String)
  errors : List String
deriving DecidableEq

/-- Mutable state threaded through `executeOrders`: the shared RiskEngine and
the Executor's counters. -/
structure ExecState where
  risk : RiskEngineState
  counters : Counters
deriving DecidableEq

/-- The `market?.markPrice || market?.lastPrice || 0` resolution. -/
def resolveMarkPrice (marketData : List (String × MarketEntry)) (coin : String) : ℚ :=
  match marketData.lookup coin with
  | none => 0
  | some m => if m.markPrice ≠ 0 then m.markPrice else m.lastPrice

/-- The fresh `ExecutionResult` initialized at the top of `executeOrders`. -/
def emptyResult : ExecutionResult :=
  { success := true, executedOrders := [], rejectedOrders := [], errors := [] }

/-- One iteration of the `for (const order of orders)` loop of
`executeOrders`. Each order is paired with the behavior of the exchange
collaborator for its retry attempts (consulted only when the order reaches
live submission). The source's outer `catch` is unreachable in this model
because `executeWithRetry` itself never throws. -/
def execStep (dryRunLogOnly : Bool) (currentPositions : List Position)
    (currentTotalNotional : ℚ) (marketData : List (String × MarketEntry)) (now : ℤ)
    (acc : ExecutionResult × ExecState) (ob : OrderRequest × (ℕ → AttemptOutcome)) :
    ExecutionResult × ExecState :=
  let result := acc.1
  let st := acc.2
  let order := ob.1
  let markPrice := resolveMarkPrice marketData order.coin
  if markPrice = 0 then
    ({ result with rejectedOrders :=
        result.rejectedOrders ++ [(order, "No market price available")] },
     { st with counters := { st.counters with rejectCount := st.counters.rejectCount + 1 } })
  else
    let riskCheck := RiskEngine.checkOrder st.risk order currentPositions
      currentTotalNotional markPrice now
    if !riskCheck.allowed then
      ({ result with rejectedOrders :=
          result.rejectedOrders ++ [(order, strOr riskCheck.reason "Risk check failed")] },
       { st with counters := { st.counters with rejectCount := st.counters.rejectCount + 1 } })
    else if dryRunLogOnly then
      ({ result with executedOrders := result.executedOrders ++
          [{ success := true, orderId := some ("dryrun-" ++ toString now),
             filledSize := some order.size }] },
       { risk := RiskEngine.recordExecution st.risk order.coin now,
         counters := { st.counters with execCount := st.counters.execCount + 1 } })
    else
      let orderResult := (executeWithRetry ob.2).result
      if orderResult.success then
        ({ result with executedOrders := result.executedOrders ++ [orderResult] },
         { risk := RiskEngine.recordExecution st.risk order.coin now,
           counters := { st.counters with execCount := st.counters.execCount + 1 } })
      else
        ({ result with
            errors := result.errors ++ [strOr orderResult.error "Unknown error"],
            success := false },
         { risk := RiskEngine.recordError st.risk now,
           counters := { st.counters with errorCount := st.counters.errorCount + 1 } })

/-- `executeOrders(orders, currentPositions, currentTotalNotional, marketData)`,
with `Date.now()` as `now` and the dry-run flag explicit. -/
def executeOrders (dryRunLogOnly : Bool) (currentPositions : List Position)
    (currentTotalNotional : ℚ) (marketData : List (String × MarketEntry)) (now : ℤ)
    (orders : List (OrderRequest × (ℕ → AttemptOutcome))) (st : ExecState) :
    ExecutionResult × ExecState :=
  orders.foldl (execStep dryRunLogOnly currentPositions currentTotalNotional marketData now)
    (emptyResult, st)

end Executor

/-! ## Supporting lemmas: Targeting -/

namespace Targeting

/-- Every order emitted by `generateOrders` carries the `isReducingPosition`
flag of its target. -/
lemma reduceOnly_of_mem_generateOrders (t : PositionTarget) (mp cap : ℚ)
    (tif : TimeInForce) (o : OrderRequest) (h : o ∈ generateOrders t mp cap tif) :
    o.reduceOnly = isReducingPosition t.currentSize t.targetSize := by
  unfold generateOrders at h
  dsimp only at h
  split at h
  · simp only [List.mem_singleton] at h
    subst h; rfl
  · split at h
    · simp only [List.mem_singleton] at h
      subst h; rfl
    · rcases List.mem_map.mp h with ⟨sz, _, rfl⟩
      rfl

/-- Boolean characterization of `isReducingPosition`. -/
lemma isReducingPosition_iff (c t : ℚ) :
    isReducingPosition c t = true ↔ ((0 < c ∧ t < c) ∨ (c < 0 ∧ c < t)) := by
  unfold isReducingPosition
  rcases lt_trichotomy c 0 with hc | hc | hc
  · rw [if_neg (by exact absurd · (by exact fun h => absurd hc (asymm h))), if_pos hc]
    simp only [decide_eq_true_eq]
    constructor
    · exact fun h => Or.inr ⟨hc, h⟩
    · rintro (⟨h1, _⟩ | ⟨_, h2⟩)
      · exact absurd hc (asymm h1)
      · exact h2
  · subst hc
    simp
  · rw [if_pos hc]
    simp only [decide_eq_true_eq]
    constructor
    · exact fun h => Or.inl ⟨hc, h⟩
    · rintro (⟨_, h2⟩ | ⟨h1, _⟩)
      · exact h2
      · exact absurd hc (asymm h1)

/-- Association-list lookup misses keys that are not present. -/
lemma lookup_eq_none_of_not_mem {β : Type} (l : List (String × β)) (k : String)
    (h : k ∉ l.map Prod.fst) : l.lookup k = none := by
  induction l with
  | nil => rfl
  | cons a l ih =>
    simp only [List.map_cons, List.mem_cons, not_or] at h
    have hne : (k == a.1) = false := beq_eq_false_iff_ne.mpr h.1
    obtain ⟨k', v⟩ := a
    simp only [List.lookup, hne]
    exact ih h.2

/-- Fields of the element produced by the `computeTargets` loop body. -/
lemma computeTargets_mem_iff (l f : List (String × Position)) (rat : ℚ)
    (t : PositionTarget) :
    t ∈ computeTargets l f rat ↔
      t.coin ∈ (l.map Prod.fst ++ f.map Prod.fst).dedup ∧
      t = ⟨t.coin, mapGetSize l t.coin * rat, mapGetSize f t.coin,
           mapGetSize l t.coin * rat - mapGetSize f t.coin⟩ ∧
      mathAbs (mapGetSize l t.coin * rat - mapGetSize f t.coin) > 1/10000 := by
  unfold computeTargets
  dsimp only
  rw [List.mem_filterMap]
  constructor
  · rintro ⟨coin, hmem, hsome⟩
    split at hsome
    · next hcond =>
      rw [Option.some_inj] at hsome
      subst hsome
      refine ⟨hmem, rfl, ?_⟩
      simpa [calculateTarget] using hcond
    · exact absurd hsome (by simp)
  · rintro ⟨hmem, heq, hcond⟩
    refine ⟨t.coin, hmem, ?_⟩
    rw [if_pos (by simpa [calculateTarget] using hcond)]
    rw [Option.some_inj]
    conv_rhs => rw [heq]
    rfl

end Targeting

/-! ## Claim C1 -/

/-- C1: every order emitted by `Targeting.generateOrders` has
`reduceOnly = true` iff (currentSize > 0 and targetSize < currentSize) or
(currentSize < 0 and targetSize > currentSize); when currentSize = 0 the flag
is false; and the sign flip current 10 → target −5 yields `reduceOnly = true`
(the literal same-side comparison, not an opposite-side check). -/
theorem claim_C1 :
    (∀ (t : PositionTarget) (mp cap : ℚ) (tif : TimeInForce) (o : OrderRequest),
       o ∈ Targeting.generateOrders t mp cap tif →
       (o.reduceOnly = true ↔
         ((0 < t.currentSize ∧ t.targetSize < t.currentSize) ∨
          (t.currentSize < 0 ∧ t.currentSize < t.targetSize))) ∧
       (t.currentSize = 0 → o.reduceOnly = false)) ∧
    (∀ o ∈ Targeting.generateOrders ⟨"BTC", -5, 10, -15⟩ 100 0 .IOC,
       o.reduceOnly = true) ∧
    Targeting.isReducingPosition 10 (-5) = true := by
  refine ⟨?_, ?_, by decide⟩
  · intro t mp cap tif o h
    rw [Targeting.reduceOnly_of_mem_generateOrders t mp cap tif o h]
    refine ⟨Targeting.isReducingPosition_iff _ _, ?_⟩
    intro hz
    unfold Targeting.isReducingPosition
    rw [hz]
    simp
  · intro o h
    rw [Targeting.reduceOnly_of_mem_generateOrders _ _ _ _ o h]
    decide

/-- Witness for C1: the claim instantiated on the long-to-short flip
(current 10, target −5), whose single generated order is reduce-only. -/
theorem claim_C1_witness :
    (((⟨"BTC", .sell, 15, .IOC, true, none⟩ : OrderRequest).reduceOnly = true ↔
       ((0 < (10:ℚ) ∧ (-5:ℚ) < 10) ∨ ((10:ℚ) < 0 ∧ (10:ℚ) < -5))) ∧
     ((10:ℚ) = 0 →
       (⟨"BTC", .sell, 15, .IOC, true, none⟩ : OrderRequest).reduceOnly = false)) ∧
    (⟨"BTC", .sell, 15, .IOC, true, none⟩ : OrderRequest).reduceOnly = true :=
  ⟨claim_C1.1 ⟨"BTC", -5, 10, -15⟩ 100 0 .IOC _ (by decide),
   claim_C1.2.1 _ (by decide)⟩

/-! ## Claim C3 -/

/-- C3: `calculateTarget` returns `targetSize = leaderSize * ratio` and
`delta = targetSize − currentSize` exactly and never fails; `computeTargets`
(over the union of the two key sets, absent sizes defaulting to 0) includes
an instrument's target iff `|delta| > 0.0001`. -/
theorem claim_C3 :
    (∀ ls cs rat : ℚ, Targeting.calculateTarget ls cs rat =
       ⟨"", ls * rat, cs, ls * rat - cs⟩) ∧
    (∀ (l f : List (String × Position)) (rat : ℚ) (t : PositionTarget),
       t ∈ Targeting.computeTargets l f rat →
       t.targetSize = Targeting.mapGetSize l t.coin * rat ∧
       t.currentSize = Targeting.mapGetSize f t.coin ∧
       t.delta = Targeting.mapGetSize l t.coin * rat - Targeting.mapGetSize f t.coin ∧
       mathAbs t.delta > 1/10000) ∧
    (∀ (l f : List (String × Position)) (rat : ℚ) (coin : String),
       (∃ t ∈ Targeting.computeTargets l f rat, t.coin = coin) ↔
       mathAbs (Targeting.mapGetSize l coin * rat - Targeting.mapGetSize f coin) > 1/10000) := by
  refine ⟨fun ls cs rat => rfl, ?_, ?_⟩
  · intro l f rat t h
    rw [Targeting.computeTargets_mem_iff] at h
    obtain ⟨-, heq, hcond⟩ := h
    rcases t with ⟨c, ts, cs', d⟩
    simp only [PositionTarget.mk.injEq] at heq
    obtain ⟨-, h1, h2, h3⟩ := heq
    subst h1; subst h2; subst h3
    exact ⟨rfl, rfl, rfl, hcond⟩
  · intro l f rat coin
    constructor
    · rintro ⟨t, ht, rfl⟩
      rw [Targeting.computeTargets_mem_iff] at ht
      exact ht.2.2
    · intro hcond
      by_cases hmem : coin ∈ (l.map Prod.fst ++ f.map Prod.fst).dedup
      · refine ⟨⟨coin, Targeting.mapGetSize l coin * rat, Targeting.mapGetSize f coin,
          Targeting.mapGetSize l coin * rat - Targeting.mapGetSize f coin⟩, ?_, rfl⟩
        rw [Targeting.computeTargets_mem_iff]
        exact ⟨hmem, rfl, hcond⟩
      · exfalso
        rw [List.mem_dedup, List.mem_append] at hmem
        push_neg at hmem
        have h1 : Targeting.mapGetSize l coin = 0 := by
          unfold Targeting.mapGetSize
          rw [Targeting.lookup_eq_none_of_not_mem l coin hmem.1]
          rfl
        have h2 : Targeting.mapGetSize f coin = 0 := by
          unfold Targeting.mapGetSize
          rw [Targeting.lookup_eq_none_of_not_mem f coin hmem.2]
          rfl
        rw [h1, h2] at hcond
        rw [show ((0:ℚ) * rat - 0) = 0 by ring] at hcond
        rw [mathAbs_eq_abs] at hcond
        norm_num at hcond

/-- Witness for C3: one leader position BTC size 10, empty follower map,
ratio 1/2 — the target (size 5, delta 5) is included, and its fields match. -/
theorem claim_C3_witness :
    ((∃ t ∈ Targeting.computeTargets [("BTC", ⟨"BTC", 10, none, 0⟩)]
        ([] : List (String × Position)) (1/2), t.coin = "BTC") ↔
      mathAbs (Targeting.mapGetSize [("BTC", ⟨"BTC", 10, none, 0⟩)] "BTC" * (1/2) -
        Targeting.mapGetSize ([] : List (String × Position)) "BTC") > 1/10000) ∧
    ((⟨"BTC", 5, 0, 5⟩ : PositionTarget).targetSize =
        Targeting.mapGetSize [("BTC", ⟨"BTC", 10, none, 0⟩)] "BTC" * (1/2) ∧
     (⟨"BTC", 5, 0, 5⟩ : PositionTarget).currentSize =
        Targeting.mapGetSize ([] : List (String × Position)) "BTC" ∧
     (⟨"BTC", 5, 0, 5⟩ : PositionTarget).delta =
        Targeting.mapGetSize [("BTC", ⟨"BTC", 10, none, 0⟩)] "BTC" * (1/2) -
        Targeting.mapGetSize ([] : List (String × Position)) "BTC" ∧
     mathAbs (⟨"BTC", 5, 0, 5⟩ : PositionTarget).delta > 1/10000) :=
  ⟨claim_C3.2.2 _ _ _ _,
   claim_C3.2.1 [("BTC", ⟨"BTC", 10, none, 0⟩)] ([] : List (String × Position))
     (1/2) ⟨"BTC", 5, 0, 5⟩ (by
      rw [Targeting.computeTargets_mem_iff]
      refine ⟨by decide, ?_, ?_⟩ <;>
        simp only [show Targeting.mapGetSize [("BTC", ⟨"BTC", 10, none, 0⟩)] "BTC" = 10 from rfl,
          show Targeting.mapGetSize ([] : List (String × Position)) "BTC" = 0 from rfl]
      · norm_num
      · rw [mathAbs_eq_abs]; norm_num)⟩

/-! ## Supporting lemmas: chunking -/

/-- `mathAbs` is nonnegative. -/
lemma mathAbs_nonneg (q : ℚ) : 0 ≤ mathAbs q := by
  rw [mathAbs_eq_abs]; exact abs_nonneg q

namespace Targeting

/-- Every chunk is bounded by the per-order cap. -/
lemma chunkSizes_le (m : ℚ) :
    ∀ (fuel : ℕ) (remaining : ℚ), ∀ c ∈ chunkSizes remaining m fuel, c ≤ m := by
  intro fuel
  induction fuel with
  | zero => intro remaining c hc; simp [chunkSizes] at hc
  | succ fuel ih =>
    intro remaining c hc
    unfold chunkSizes at hc
    split at hc
    · rcases List.mem_cons.mp hc with rfl | hmem
      · exact min_le_right _ _
      · exact ih _ c hmem
    · simp at hc

/-- With positive cap and sufficient fuel, the chunks sum to the requested
size up to the 0.0001 loop threshold (and never exceed it). -/
lemma chunkSizes_sum (m : ℚ) (hm : 0 < m) :
    ∀ (fuel : ℕ) (remaining : ℚ), 0 ≤ remaining → remaining ≤ (fuel : ℚ) * m →
    remaining - 1/10000 ≤ (chunkSizes remaining m fuel).sum ∧
    (chunkSizes remaining m fuel).sum ≤ remaining := by
  intro fuel
  induction fuel with
  | zero =>
    intro remaining h0 hle
    simp only [Nat.cast_zero, zero_mul] at hle
    have : remaining = 0 := le_antisymm hle h0
    subst this
    simp [chunkSizes]
  | succ fuel ih =>
    intro remaining h0 hle
    unfold chunkSizes
    split
    · next hgt =>
      have hchunk_le : min remaining m ≤ remaining := min_le_left _ _
      have h0' : 0 ≤ remaining - min remaining m := by linarith
      have hle' : remaining - min remaining m ≤ (fuel : ℚ) * m := by
        rcases le_total remaining m with h | h
        · rw [min_eq_left h]
          have : (0:ℚ) ≤ (fuel : ℚ) * m :=
            mul_nonneg (Nat.cast_nonneg fuel) (le_of_lt hm)
          linarith
        · rw [min_eq_right h]
          push_cast at hle
          linarith
      obtain ⟨ihl, ihr⟩ := ih (remaining - min remaining m) h0' hle'
      simp only [List.sum_cons]
      constructor <;> linarith
    · next hle' =>
      push_neg at hle'
      simp only [List.sum_nil]
      constructor <;> linarith

end Targeting

/-! ## Claim C4 -/

/-- C4: with `markPrice > 0`: if `notionalCapUsd ≤ 0`, `generateOrders` emits
exactly one order of size `abs(delta)`; otherwise every order has size
`≤ notionalCapUsd / markPrice`, all orders share side, tif and reduceOnly,
and the sizes sum to `abs(delta)` within tolerance 1e-4. -/
theorem claim_C4 (t : PositionTarget) (mp cap : ℚ) (tif : TimeInForce)
    (hmp : 0 < mp) :
    (cap ≤ 0 →
      (Targeting.generateOrders t mp cap tif).map OrderRequest.size = [mathAbs t.delta]) ∧
    (0 < cap →
      (∀ o ∈ Targeting.generateOrders t mp cap tif,
         o.size ≤ cap / mp ∧
         o.side = (if 0 < t.delta then OrderSide.buy else OrderSide.sell) ∧
         o.tif = tif ∧
         o.reduceOnly = Targeting.isReducingPosition t.currentSize t.targetSize) ∧
      mathAbs (((Targeting.generateOrders t mp cap tif).map OrderRequest.size).sum -
        mathAbs t.delta) ≤ 1/10000) := by
  constructor
  · intro hcap
    unfold Targeting.generateOrders
    dsimp only
    rw [if_pos hcap]
    rfl
  · intro hcap
    have hM : 0 < cap / mp := div_pos hcap hmp
    have hs0 : 0 ≤ mathAbs t.delta := mathAbs_nonneg _
    unfold Targeting.generateOrders
    dsimp only
    rw [if_neg (not_le.mpr hcap)]
    by_cases hle : mathAbs t.delta ≤ cap / mp
    · rw [if_pos hle]
      refine ⟨?_, ?_⟩
      · intro o ho
        rcases List.mem_singleton.mp ho with rfl
        exact ⟨hle, rfl, rfl, rfl⟩
      · simp only [List.map_cons, List.map_nil, List.sum_cons, List.sum_nil]
        rw [show mathAbs t.delta + 0 - mathAbs t.delta = 0 by ring]
        rw [mathAbs_eq_abs]
        norm_num
    · rw [if_neg hle]
      have hfuel : mathAbs t.delta ≤
          ((Nat.ceil (mathAbs t.delta / (cap / mp)) : ℕ) : ℚ) * (cap / mp) := by
        have h1 := Nat.le_ceil (mathAbs t.delta / (cap / mp))
        calc mathAbs t.delta
            = mathAbs t.delta / (cap / mp) * (cap / mp) := by field_simp
          _ ≤ ((Nat.ceil (mathAbs t.delta / (cap / mp)) : ℕ) : ℚ) * (cap / mp) := by
              exact mul_le_mul_of_nonneg_right h1 (le_of_lt hM)
      obtain ⟨hsuml, hsumr⟩ := Targeting.chunkSizes_sum (cap / mp) hM _ _ hs0 hfuel
      refine ⟨?_, ?_⟩
      · intro o ho
        rcases List.mem_map.mp ho with ⟨c, hc, rfl⟩
        exact ⟨Targeting.chunkSizes_le (cap / mp) _ _ c hc, rfl, rfl, rfl⟩
      · rw [List.map_map]
        have : (OrderRequest.size ∘ fun sz =>
            ({ coin := t.coin, side := if 0 < t.delta then OrderSide.buy else OrderSide.sell,
               size := sz, tif := tif,
               reduceOnly := Targeting.isReducingPosition t.currentSize t.targetSize } :
              OrderRequest)) = id := rfl
        rw [this, List.map_id]
        rw [mathAbs_eq_abs, abs_le]
        constructor <;> linarith

/-- Witness for C4: target delta −3 at mark price 1; cap 0 gives one order of
size 3; cap 2 gives chunked orders summing to 3 within tolerance. -/
theorem claim_C4_witness :
    ((Targeting.generateOrders ⟨"ETH", 0, 3, -3⟩ 1 0 .IOC).map OrderRequest.size
        = [mathAbs (⟨"ETH", 0, 3, -3⟩ : PositionTarget).delta]) ∧
    mathAbs (((Targeting.generateOrders ⟨"ETH", 0, 3, -3⟩ 1 2 .IOC).map OrderRequest.size).sum -
        mathAbs (⟨"ETH", 0, 3, -3⟩ : PositionTarget).delta) ≤ 1/10000 :=
  ⟨(claim_C4 ⟨"ETH", 0, 3, -3⟩ 1 0 .IOC (by decide)).1 (by decide),
   ((claim_C4 ⟨"ETH", 0, 3, -3⟩ 1 2 .IOC (by decide)).2 (by decide)).2⟩

/-! ## Supporting lemmas: substring containment and reason strings -/

/-- A pattern leads any list that extends it. -/
lemma leadMatch_self_append (p r : List Char) : leadMatch p (p ++ r) = true := by
  induction p with
  | nil => rfl
  | cons c t ih => simp [leadMatch, ih]

/-- Containment survives prepending. -/
lemma hasSub_append_of_right (a : List Char) {s pat : List Char}
    (h : hasSub pat s = true) : hasSub pat (a ++ s) = true := by
  induction a with
  | nil => exact h
  | cons x t ih =>
    show (leadMatch pat (x :: (t ++ s)) || hasSub pat (t ++ s)) = true
    rw [ih]
    simp

/-- A pattern is contained in itself followed by anything. -/
lemma hasSub_self_append (pat c : List Char) : hasSub pat (pat ++ c) = true := by
  cases pat with
  | nil =>
    cases c with
    | nil => rfl
    | cons d t => simp [hasSub, leadMatch]
  | cons e p =>
    show (leadMatch (e :: p) ((e :: p) ++ c) || _) = true
    rw [leadMatch_self_append]
    simp

/-- A pattern is contained in any surrounding context. -/
lemma hasSub_mid (a pat c : List Char) : hasSub pat (a ++ (pat ++ c)) = true :=
  hasSub_append_of_right a (hasSub_self_append pat c)

/-- A pattern is contained in anything it terminates. -/
lemma hasSub_append_self (a pat : List Char) : hasSub pat (a ++ pat) = true := by
  have h := hasSub_mid a pat []
  rwa [List.append_nil] at h

/-- Head character of a string append, when the left part is nonempty. -/
lemma head_append_left (s t : String) (c : Char) (h : s.data.head? = some c) :
    (s ++ t).data.head? = some c := by
  rw [String.data_append]
  cases hs : s.data with
  | nil => rw [hs] at h; exact absurd h (by simp)
  | cons x l =>
    rw [hs] at h
    simpa using h

namespace RiskEngine

/-- The cooldown reason string starts with 'C'. -/
lemma cooldownReason_head (coin : String) (rem : ℤ) :
    (cooldownReason coin rem).data.head? = some 'C' := by
  unfold cooldownReason
  exact head_append_left _ _ _ (head_append_left _ _ _ (head_append_left _ _ _
    (head_append_left _ _ _ rfl)))

/-- The cooldown reason string contains "Cooldown". -/
lemma cooldownReason_has_cooldown (coin : String) (rem : ℤ) :
    strHas (cooldownReason coin rem) "Cooldown" = true := by
  unfold strHas cooldownReason
  rw [String.data_append, String.data_append, String.data_append, String.data_append]
  rw [show "Cooldown active for ".data =
    "Cooldown".data ++ " active for ".data from rfl]
  rw [List.append_assoc, List.append_assoc, List.append_assoc, List.append_assoc]
  exact hasSub_self_append _ _

/-- The cooldown reason string contains the remaining time (followed by the
"ms remaining" unit marker). -/
lemma cooldownReason_has_remaining (coin : String) (rem : ℤ) :
    strHas (cooldownReason coin rem) (toString rem ++ "ms remaining)") = true := by
  unfold strHas cooldownReason
  rw [String.data_append, String.data_append, String.data_append, String.data_append,
    String.data_append]
  rw [List.append_assoc]
  exact hasSub_append_self _ _

/-- Head character of the total-notional rejection reason. -/
lemma notional_reason_head (a b : String) :
    ("Max total notional exceeded: " ++ a ++ " > " ++ b).data.head? = some 'M' :=
  head_append_left _ _ _ (head_append_left _ _ _ (head_append_left _ _ _ rfl))

/-- Head character of the leverage rejection reason. -/
lemma leverage_reason_head (a b c : String) :
    ("Max leverage exceeded for " ++ a ++ ": " ++ b ++ " > " ++ c).data.head? = some 'M' :=
  head_append_left _ _ _ (head_append_left _ _ _ (head_append_left _ _ _
    (head_append_left _ _ _ rfl)))

/-- A result whose reason starts with 'M' is not the cooldown rejection. -/
lemma ne_cooldownRejection_of_reason_M (st : RiskEngineState) (order : OrderRequest)
    (now : ℤ) (r : RiskCheckResult) (s : String) (hs : r.reason = some s)
    (hM : s.data.head? = some 'M') : r ≠ cooldownRejection st order now := by
  intro h
  rw [h] at hs
  simp only [cooldownRejection] at hs
  have heq := Option.some.inj hs
  rw [← heq] at hM
  rw [cooldownReason_head] at hM
  exact absurd (Option.some.inj hM) (by decide)

/-- An allowed result is not the cooldown rejection. -/
lemma ne_cooldownRejection_of_allowed (st : RiskEngineState) (order : OrderRequest)
    (now : ℤ) (r : RiskCheckResult) (hr : r.allowed = true) :
    r ≠ cooldownRejection st order now := by
  intro h
  rw [h] at hr
  simp [cooldownRejection] at hr

/-- An if-expression avoids the cooldown rejection when both arms do. -/
lemma ite_ne_cooldownRejection (st : RiskEngineState) (order : OrderRequest)
    (now : ℤ) (c : Prop) [Decidable c] (r₁ r₂ : RiskCheckResult)
    (h₁ : r₁ ≠ cooldownRejection st order now)
    (h₂ : r₂ ≠ cooldownRejection st order now) :
    (if c then r₁ else r₂) ≠ cooldownRejection st order now := by
  split <;> assumption

/-- Under states where the panic and circuit-breaker checks do not fire,
`checkOrder` returns the cooldown rejection exactly when the cooldown window
is still open. -/
lemma checkOrder_cooldown_iff (st : RiskEngineState) (order : OrderRequest)
    (pos : List Position) (tot mp : ℚ) (now : ℤ)
    (hp : (st.panicMode = false ∧ st.autoTradingDisabled = false) ∨ order.reduceOnly = true) :
    (checkOrder st order pos tot mp now = cooldownRejection st order now ↔
     now - lastExecOf st order.coin < st.cooldownMs) := by
  have hpanic : (st.panicMode && !order.reduceOnly) = false := by
    rcases hp with ⟨h1, _⟩ | h2
    · rw [h1]; rfl
    · rw [h2]; simp
  have hauto : (st.autoTradingDisabled && !order.reduceOnly) = false := by
    rcases hp with ⟨_, h1⟩ | h2
    · rw [h1]; rfl
    · rw [h2]; simp
  unfold checkOrder
  rw [hpanic, hauto]
  simp only [Bool.false_eq_true, if_false]
  constructor
  · intro heq
    by_contra hc
    rw [if_neg hc] at heq
    exact absurd heq (ite_ne_cooldownRejection st order now _ _ _
      (ne_cooldownRejection_of_reason_M st order now _ _ rfl (notional_reason_head _ _))
      (ite_ne_cooldownRejection st order now _ _ _
        (ite_ne_cooldownRejection st order now _ _ _
          (ne_cooldownRejection_of_reason_M st order now _ _ rfl (leverage_reason_head _ _ _))
          (ne_cooldownRejection_of_allowed st order now _ rfl))
        (ne_cooldownRejection_of_allowed st order now _ rfl)))
  · intro hc
    rw [if_pos hc]
    rfl

/-- After `recordExecution`, the recorded coin's last execution is the
recorded timestamp. -/
lemma lastExecOf_recordExecution (st : RiskEngineState) (coin : String) (now₀ : ℤ) :
    lastExecOf (recordExecution st coin now₀) coin = now₀ := by
  unfold lastExecOf recordExecution
  simp [List.lookup]

end RiskEngine

/-! ## Claim C2 -/

/-- C2: a reduce-only order is never rejected for panic, circuit breaker,
notional or leverage — `checkOrder` either allows it or returns the cooldown
rejection; and while panic mode is set, every non-reduce-only order is
rejected with a reason containing "PANIC". -/
theorem claim_C2 :
    (∀ (st : RiskEngineState) (order : OrderRequest) (pos : List Position)
       (tot mp : ℚ) (now : ℤ), order.reduceOnly = true →
       RiskEngine.checkOrder st order pos tot mp now = { allowed := true, reason := none } ∨
       RiskEngine.checkOrder st order pos tot mp now = RiskEngine.cooldownRejection st order now) ∧
    (∀ (st : RiskEngineState) (order : OrderRequest) (pos : List Position)
       (tot mp : ℚ) (now : ℤ), order.reduceOnly = false → st.panicMode = true →
       RiskEngine.checkOrder st order pos tot mp now =
         { allowed := false,
           reason := some "PANIC mode active - only reduce-only orders allowed" } ∧
       strHas (strOr (RiskEngine.checkOrder st order pos tot mp now).reason "") "PANIC" = true) := by
  constructor
  · intro st order pos tot mp now h
    unfold RiskEngine.checkOrder
    rw [h]
    simp only [Bool.not_true, Bool.and_false, Bool.false_eq_true, if_false,
      Bool.false_and]
    split
    · exact Or.inr rfl
    · exact Or.inl rfl
  · intro st order pos tot mp now hro hpm
    have hc : RiskEngine.checkOrder st order pos tot mp now =
        { allowed := false,
          reason := some "PANIC mode active - only reduce-only orders allowed" } := by
      unfold RiskEngine.checkOrder
      rw [hro, hpm]
      rfl
    refine ⟨hc, ?_⟩
    rw [hc]
    decide

/-- Witness for C2: a panic-mode state rejects a plain order with the PANIC
reason and passes (or cooldown-blocks) the reduce-only version. -/
theorem claim_C2_witness :
    (RiskEngine.checkOrder ⟨10, 1000000, 0, true, false, [], ⟨0, 0⟩⟩
        ⟨"BTC", .buy, 1, .IOC, true, none⟩ [] 0 1 0 = { allowed := true, reason := none } ∨
     RiskEngine.checkOrder ⟨10, 1000000, 0, true, false, [], ⟨0, 0⟩⟩
        ⟨"BTC", .buy, 1, .IOC, true, none⟩ [] 0 1 0 =
       RiskEngine.cooldownRejection ⟨10, 1000000, 0, true, false, [], ⟨0, 0⟩⟩
         ⟨"BTC", .buy, 1, .IOC, true, none⟩ 0) ∧
    (RiskEngine.checkOrder ⟨10, 1000000, 0, true, false, [], ⟨0, 0⟩⟩
        ⟨"BTC", .buy, 1, .IOC, false, none⟩ [] 0 1 0 =
       { allowed := false,
         reason := some "PANIC mode active - only reduce-only orders allowed" } ∧
     strHas (strOr (RiskEngine.checkOrder ⟨10, 1000000, 0, true, false, [], ⟨0, 0⟩⟩
        ⟨"BTC", .buy, 1, .IOC, false, none⟩ [] 0 1 0).reason "") "PANIC" = true) :=
  ⟨claim_C2.1 _ _ [] 0 1 0 rfl, claim_C2.2 _ _ [] 0 1 0 rfl rfl⟩

/-! ## Claim C5 -/

/-- C5: with panic and circuit breaker not blocking the order, `checkOrder`
returns the cooldown rejection iff `now − lastExecution[instrument] <
cooldownMs`; the cooldown reason contains "Cooldown" and the remaining time;
a never-executed instrument passes the cooldown check (for epoch-scale `now ≥
cooldownMs`); and an order checked at least `cooldownMs` after the
instrument's last `recordExecution` passes the cooldown check. -/
theorem claim_C5 :
    (∀ (st : RiskEngineState) (order : OrderRequest) (pos : List Position)
       (tot mp : ℚ) (now : ℤ),
       ((st.panicMode = false ∧ st.autoTradingDisabled = false) ∨ order.reduceOnly = true) →
       (RiskEngine.checkOrder st order pos tot mp now =
          RiskEngine.cooldownRejection st order now ↔
        now - RiskEngine.lastExecOf st order.coin < st.cooldownMs)) ∧
    (∀ (coin : String) (rem : ℤ),
       strHas (RiskEngine.cooldownReason coin rem) "Cooldown" = true ∧
       strHas (RiskEngine.cooldownReason coin rem) (toString rem ++ "ms remaining)") = true) ∧
    (∀ (st : RiskEngineState) (order : OrderRequest) (pos : List Position)
       (tot mp : ℚ) (now : ℤ),
       st.lastExecByCoin.lookup order.coin = none →
       st.cooldownMs ≤ now →
       ((st.panicMode = false ∧ st.autoTradingDisabled = false) ∨ order.reduceOnly = true) →
       RiskEngine.checkOrder st order pos tot mp now ≠
         RiskEngine.cooldownRejection st order now) ∧
    (∀ (st : RiskEngineState) (order : OrderRequest) (pos : List Position)
       (tot mp : ℚ) (now₀ now : ℤ),
       now₀ + st.cooldownMs ≤ now →
       ((st.panicMode = false ∧ st.autoTradingDisabled = false) ∨ order.reduceOnly = true) →
       RiskEngine.checkOrder (RiskEngine.recordExecution st order.coin now₀) order pos tot mp now ≠
         RiskEngine.cooldownRejection (RiskEngine.recordExecution st order.coin now₀) order now) := by
  refine ⟨RiskEngine.checkOrder_cooldown_iff, ?_, ?_, ?_⟩
  · intro coin rem
    exact ⟨RiskEngine.cooldownReason_has_cooldown coin rem,
      RiskEngine.cooldownReason_has_remaining coin rem⟩
  · intro st order pos tot mp now hnone hnow hp heq
    have hlt := (RiskEngine.checkOrder_cooldown_iff st order pos tot mp now hp).mp heq
    have h0 : RiskEngine.lastExecOf st order.coin = 0 := by
      unfold RiskEngine.lastExecOf
      rw [hnone]
      rfl
    rw [h0] at hlt
    omega
  · intro st order pos tot mp now₀ now hwait hp heq
    have hp' : ((RiskEngine.recordExecution st order.coin now₀).panicMode = false ∧
        (RiskEngine.recordExecution st order.coin now₀).autoTradingDisabled = false) ∨
        order.reduceOnly = true := hp
    have hlt := (RiskEngine.checkOrder_cooldown_iff _ order pos tot mp now hp').mp heq
    rw [RiskEngine.lastExecOf_recordExecution] at hlt
    have hcd : (RiskEngine.recordExecution st order.coin now₀).cooldownMs = st.cooldownMs := rfl
    rw [hcd] at hlt
    omega

/-- Witness for C5: cooldown 5000 ms, last execution at time 100, checked at
time 1000 (inside the window) — the iff instance holds; and the state after
`recordExecution` at time 0 passes the cooldown check at time 5000. -/
theorem claim_C5_witness :
    (RiskEngine.checkOrder ⟨10, 1000000, 5000, false, false, [("BTC", 100)], ⟨0, 0⟩⟩
        ⟨"BTC", .buy, 1, .IOC, true, none⟩ [] 0 1 1000 =
      RiskEngine.cooldownRejection ⟨10, 1000000, 5000, false, false, [("BTC", 100)], ⟨0, 0⟩⟩
        ⟨"BTC", .buy, 1, .IOC, true, none⟩ 1000 ↔
      1000 - RiskEngine.lastExecOf ⟨10, 1000000, 5000, false, false, [("BTC", 100)], ⟨0, 0⟩⟩
        "BTC" < 5000) ∧
    (strHas (RiskEngine.cooldownReason "BTC" 4100) "Cooldown" = true ∧
     strHas (RiskEngine.cooldownReason "BTC" 4100) (toString (4100 : ℤ) ++ "ms remaining)") = true) ∧
    RiskEngine.checkOrder ⟨10, 1000000, 5000, false, false, [], ⟨0, 0⟩⟩
        ⟨"BTC", .buy, 1, .IOC, true, none⟩ [] 0 1 5000 ≠
      RiskEngine.cooldownRejection ⟨10, 1000000, 5000, false, false, [], ⟨0, 0⟩⟩
        ⟨"BTC", .buy, 1, .IOC, true, none⟩ 5000 ∧
    RiskEngine.checkOrder
        (RiskEngine.recordExecution ⟨10, 1000000, 5000, false, false, [], ⟨0, 0⟩⟩ "BTC" 0)
        ⟨"BTC", .buy, 1, .IOC, true, none⟩ [] 0 1 5000 ≠
      RiskEngine.cooldownRejection
        (RiskEngine.recordExecution ⟨10, 1000000, 5000, false, false, [], ⟨0, 0⟩⟩ "BTC" 0)
        ⟨"BTC", .buy, 1, .IOC, true, none⟩ 5000 :=
  ⟨claim_C5.1 _ _ [] 0 1 1000 (Or.inl ⟨rfl, rfl⟩),
   claim_C5.2.1 "BTC" 4100,
   claim_C5.2.2.1 _ _ [] 0 1 5000 rfl (by decide) (Or.inl ⟨rfl, rfl⟩),
   claim_C5.2.2.2 _ _ [] 0 1 0 5000 (by decide) (Or.inl ⟨rfl, rfl⟩)⟩

/-! ## Supporting lemmas: circuit breaker -/

namespace RiskEngine

/-- `recordError` inside the rolling window: no reset, count increments,
window start unchanged, breaker trips at the threshold. -/
lemma recordError_within (st : RiskEngineState) (now : ℤ)
    (h : ¬(now - st.circuitBreaker.windowStart > circuitBreakerWindowMs)) :
    recordError st now = { st with
      circuitBreaker := ⟨st.circuitBreaker.errorCount + 1, st.circuitBreaker.windowStart⟩,
      autoTradingDisabled :=
        if st.circuitBreaker.errorCount + 1 ≥ circuitBreakerErrorThreshold then true
        else st.autoTradingDisabled } := by
  simp only [recordError]
  rw [if_neg h]

/-- `recordError` after the window expired: count restarts at 1, window
restarts at `now`, the tripped flag is untouched. -/
lemma recordError_reset (st : RiskEngineState) (now : ℤ)
    (h : now - st.circuitBreaker.windowStart > circuitBreakerWindowMs) :
    recordError st now = { st with circuitBreaker := ⟨1, now⟩ } := by
  simp only [recordError]
  rw [if_pos h]
  rfl

/-- Folding `recordError` over timestamps inside the window adds their count
and trips the breaker exactly when the threshold is reached. -/
lemma recordError_foldl (ws₀ : ℤ) :
    ∀ (ts : List ℤ) (st : RiskEngineState),
    st.circuitBreaker.windowStart = ws₀ →
    (∀ t ∈ ts, t - ws₀ ≤ circuitBreakerWindowMs) →
    st.autoTradingDisabled =
      decide (st.circuitBreaker.errorCount ≥ circuitBreakerErrorThreshold) →
    ((ts.foldl recordError st).circuitBreaker.errorCount =
       st.circuitBreaker.errorCount + ts.length ∧
     (ts.foldl recordError st).circuitBreaker.windowStart = ws₀ ∧
     (ts.foldl recordError st).autoTradingDisabled =
       decide (st.circuitBreaker.errorCount + ts.length ≥ circuitBreakerErrorThreshold)) := by
  intro ts
  induction ts with
  | nil =>
    intro st hws _ hdis
    exact ⟨by simp, hws, by simpa using hdis⟩
  | cons t ts ih =>
    intro st hws hmem hdis
    have hnr : ¬(t - st.circuitBreaker.windowStart > circuitBreakerWindowMs) := by
      rw [hws]
      push_neg
      exact hmem t (List.mem_cons_self t ts)
    rw [List.foldl_cons, recordError_within st t hnr]
    obtain ⟨h1, h2, h3⟩ := ih
      { st with
        circuitBreaker := ⟨st.circuitBreaker.errorCount + 1, st.circuitBreaker.windowStart⟩,
        autoTradingDisabled :=
          if st.circuitBreaker.errorCount + 1 ≥ circuitBreakerErrorThreshold then true
          else st.autoTradingDisabled }
      hws
      (fun u hu => hmem u (List.mem_cons_of_mem t hu))
      (by
        by_cases h5 : st.circuitBreaker.errorCount + 1 ≥ circuitBreakerErrorThreshold
        · simp [h5]
        · have h4 : ¬(st.circuitBreaker.errorCount ≥ circuitBreakerErrorThreshold) := by
            omega
          simp only [if_neg h5, hdis]
          simp [h4, h5])
    refine ⟨?_, h2, ?_⟩
    · rw [h1]
      simp only [List.length_cons]
      omega
    · rw [h3]
      apply decide_eq_decide.mpr
      simp only [List.length_cons]
      omega

end RiskEngine

/-! ## Claim C6 -/

/-- C6: `recordError` resets count and window when the rolling window has
expired, then increments (giving count 1); within the window it increments
without touching the window start; from a clean state, n in-window calls trip
the breaker exactly when n reaches the threshold 5; `resetCircuitBreaker`
clears flag, count and window; and `autoTradingDisabled` is never cleared by
`recordError` (time passing) or by `recordExecution` (a success). -/
theorem claim_C6 :
    (∀ (st : RiskEngineState) (now : ℤ),
       now - st.circuitBreaker.windowStart > RiskEngine.circuitBreakerWindowMs →
       (RiskEngine.recordError st now).circuitBreaker = ⟨1, now⟩ ∧
       (RiskEngine.recordError st now).autoTradingDisabled = st.autoTradingDisabled) ∧
    (∀ (st : RiskEngineState) (now : ℤ),
       ¬(now - st.circuitBreaker.windowStart > RiskEngine.circuitBreakerWindowMs) →
       (RiskEngine.recordError st now).circuitBreaker =
         ⟨st.circuitBreaker.errorCount + 1, st.circuitBreaker.windowStart⟩) ∧
    (∀ (st : RiskEngineState) (ts : List ℤ),
       st.circuitBreaker.errorCount = 0 → st.autoTradingDisabled = false →
       (∀ t ∈ ts, t - st.circuitBreaker.windowStart ≤ RiskEngine.circuitBreakerWindowMs) →
       (ts.foldl RiskEngine.recordError st).autoTradingDisabled =
         decide (ts.length ≥ RiskEngine.circuitBreakerErrorThreshold) ∧
       (ts.foldl RiskEngine.recordError st).circuitBreaker.errorCount = ts.length) ∧
    (∀ (st : RiskEngineState) (now : ℤ), RiskEngine.resetCircuitBreaker st now =
       { st with autoTradingDisabled := false, circuitBreaker := ⟨0, now⟩ }) ∧
    (∀ (st : RiskEngineState) (now : ℤ), st.autoTradingDisabled = true →
       (RiskEngine.recordError st now).autoTradingDisabled = true) ∧
    (∀ (st : RiskEngineState) (coin : String) (now : ℤ),
       (RiskEngine.recordExecution st coin now).autoTradingDisabled =
         st.autoTradingDisabled) := by
  refine ⟨?_, ?_, ?_, fun st now => rfl, ?_, fun st coin now => rfl⟩
  · intro st now h
    rw [RiskEngine.recordError_reset st now h]
    exact ⟨rfl, rfl⟩
  · intro st now h
    rw [RiskEngine.recordError_within st now h]
  · intro st ts h0 hdis hmem
    obtain ⟨h1, -, h3⟩ := RiskEngine.recordError_foldl st.circuitBreaker.windowStart ts st rfl
      hmem (by rw [hdis, h0]; rfl)
    rw [h0] at h1 h3
    refine ⟨?_, by simpa using h1⟩
    rw [h3]
    apply decide_eq_decide.mpr
    omega
  · intro st now h
    simp only [RiskEngine.recordError]
    split <;> split <;> simp [h]

/-- Witness for C6: five in-window errors starting from a clean state trip
the breaker; an error after window expiry restarts the count at 1. -/
theorem claim_C6_witness :
    (([1, 2, 3, 4, 5] : List ℤ).foldl RiskEngine.recordError
        ⟨10, 1000000, 5000, false, false, [], ⟨0, 0⟩⟩).autoTradingDisabled =
      decide (([1, 2, 3, 4, 5] : List ℤ).length ≥ RiskEngine.circuitBreakerErrorThreshold) ∧
    (([1, 2, 3, 4, 5] : List ℤ).foldl RiskEngine.recordError
        ⟨10, 1000000, 5000, false, false, [], ⟨0, 0⟩⟩).circuitBreaker.errorCount =
      ([1, 2, 3, 4, 5] : List ℤ).length ∧
    (RiskEngine.recordError ⟨10, 1000000, 5000, false, true, [], ⟨3, 0⟩⟩
        300001).circuitBreaker = ⟨1, 300001⟩ ∧
    (RiskEngine.recordError ⟨10, 1000000, 5000, false, true, [], ⟨3, 0⟩⟩
        300001).autoTradingDisabled = true :=
  ⟨(claim_C6.2.2.1 ⟨10, 1000000, 5000, false, false, [], ⟨0, 0⟩⟩ [1, 2, 3, 4, 5]
      rfl rfl (by decide)).1,
   (claim_C6.2.2.1 ⟨10, 1000000, 5000, false, false, [], ⟨0, 0⟩⟩ [1, 2, 3, 4, 5]
      rfl rfl (by decide)).2,
   (claim_C6.1 ⟨10, 1000000, 5000, false, true, [], ⟨3, 0⟩⟩ 300001 (by decide)).1,
   claim_C6.2.2.2.2.1 ⟨10, 1000000, 5000, false, true, [], ⟨3, 0⟩⟩ 300001 rfl⟩

/-! ## Supporting lemmas: retry loop -/

namespace Executor

/-- The `lastError || 'Unknown error'` fallback never yields an empty string. -/
lemma strOr_default_ne (v : Option String) : strOr v "Unknown error" ≠ "" := by
  unfold strOr
  cases v with
  | none => decide
  | some s =>
    show (if s = "" then "Unknown error" else s) ≠ ""
    by_cases hs : s = ""
    · rw [if_pos hs]; decide
    · rw [if_neg hs]; exact hs

/-- An effective failure message is never empty. -/
lemma effMsg_ne_empty (o : AttemptOutcome) (s : String) (h : effMsg o = some s) :
    s ≠ "" := by
  cases o with
  | returned r =>
    simp only [effMsg] at h
    split at h
    · exact absurd h (by simp)
    · rw [← Option.some.inj h]
      exact strOr_default_ne _
  | thrown m =>
    simp only [effMsg] at h
    rw [← Option.some.inj h]
    by_cases hm : m = ""
    · rw [if_pos hm]; decide
    · rw [if_neg hm]; exact hm

/-- One failing attempt unfolds to a `retryFailStep` around the recursion. -/
lemma executeWithRetryAux_fail_step (behavior : ℕ → AttemptOutcome) (a rem : ℕ)
    (e s : String) (h : effMsg (behavior a) = some s) :
    executeWithRetryAux behavior a (rem + 1) e =
    retryFailStep (executeWithRetryAux behavior (a + 1) rem s) a rem := by
  rcases hb : behavior a with r | m
  · rw [hb] at h
    simp only [effMsg] at h
    split at h
    · exact absurd h (by simp)
    · next hs =>
      simp only [executeWithRetryAux, hb, if_neg hs]
      rw [Option.some.inj h]
  · rw [hb] at h
    simp only [effMsg] at h
    simp only [executeWithRetryAux, hb]
    rw [Option.some.inj h]

/-- Attempt accounting of the failure bookkeeping step. -/
lemma retryFailStep_spec (rest : RetryTrace) (a fuel : ℕ) (ha : 1 ≤ a)
    (h1 : rest.attempts ≤ fuel) (h2 : 1 ≤ fuel → 1 ≤ rest.attempts)
    (h3 : rest.delays = (List.range (rest.attempts - 1)).map
      (fun k => retryDelayMs * 2 ^ (a + k))) :
    (retryFailStep rest a fuel).attempts ≤ fuel + 1 ∧
    1 ≤ (retryFailStep rest a fuel).attempts ∧
    (retryFailStep rest a fuel).delays =
      (List.range ((retryFailStep rest a fuel).attempts - 1)).map
        (fun k => retryDelayMs * 2 ^ (a - 1 + k)) := by
  unfold retryFailStep
  by_cases hf : fuel = 0
  · subst hf
    rw [if_pos rfl]
    have h0 : rest.attempts = 0 := Nat.le_zero.mp h1
    refine ⟨by dsimp only; omega, by dsimp only; omega, ?_⟩
    dsimp only
    rw [h3, h0]
    rfl
  · rw [if_neg hf]
    have hra : 1 ≤ rest.attempts := h2 (Nat.one_le_iff_ne_zero.mpr hf)
    refine ⟨by dsimp only; omega, by dsimp only; omega, ?_⟩
    dsimp only
    rw [h3, Nat.add_sub_cancel]
    obtain ⟨n, hn⟩ : ∃ n, rest.attempts = n + 1 := ⟨rest.attempts - 1, by omega⟩
    rw [hn, Nat.add_sub_cancel, List.range_succ_eq_map, List.map_cons, List.map_map]
    refine congrArg₂ List.cons ?_ ?_
    · show retryDelayMs * 2 ^ (a - 1) = retryDelayMs * 2 ^ (a - 1 + 0)
      have h0 : a - 1 + 0 = a - 1 := by omega
      rw [h0]
    · refine List.map_congr_left ?_
      intro k _
      show retryDelayMs * 2 ^ (a + k) = retryDelayMs * 2 ^ (a - 1 + (k + 1))
      have he : a + k = a - 1 + (k + 1) := by omega
      rw [he]

/-- Attempt count and delay schedule of the retry loop: at most `fuel`
attempts, at least one when fuel remains, and the waits are
`retryDelayMs * 2^(attempt-1)` for every non-final attempt. -/
lemma executeWithRetryAux_spec (behavior : ℕ → AttemptOutcome) :
    ∀ (fuel a : ℕ), 1 ≤ a → ∀ (e : String),
    (executeWithRetryAux behavior a fuel e).attempts ≤ fuel ∧
    (1 ≤ fuel → 1 ≤ (executeWithRetryAux behavior a fuel e).attempts) ∧
    (executeWithRetryAux behavior a fuel e).delays =
      (List.range ((executeWithRetryAux behavior a fuel e).attempts - 1)).map
        (fun k => retryDelayMs * 2 ^ (a - 1 + k)) := by
  intro fuel
  induction fuel with
  | zero =>
    intro a ha e
    exact ⟨Nat.le_refl 0, fun h => absurd h (by decide), rfl⟩
  | succ fuel ih =>
    intro a ha e
    rcases hb : behavior a with r | m
    · by_cases hs : r.success = true
      · simp only [executeWithRetryAux, hb, if_pos hs]
        exact ⟨by omega, fun _ => Nat.le_refl 1, rfl⟩
      · simp only [executeWithRetryAux, hb, if_neg hs]
        have hih := ih (a + 1) (by omega) (strOr r.error "Unknown error")
        have hstep := retryFailStep_spec
          (executeWithRetryAux behavior (a + 1) fuel (strOr r.error "Unknown error"))
          a fuel ha hih.1 hih.2.1 (by simpa using hih.2.2)
        exact ⟨hstep.1, fun _ => hstep.2.1, hstep.2.2⟩
    · simp only [executeWithRetryAux, hb]
      have hih := ih (a + 1) (by omega) (if m = "" then "Unknown error" else m)
      have hstep := retryFailStep_spec
        (executeWithRetryAux behavior (a + 1) fuel (if m = "" then "Unknown error" else m))
        a fuel ha hih.1 hih.2.1 (by simpa using hih.2.2)
      exact ⟨hstep.1, fun _ => hstep.2.1, hstep.2.2⟩

/-- A thrown exception and a returned non-success result with the same
message drive the retry loop identically. -/
lemma executeWithRetryAux_collapse (behavior : ℕ → AttemptOutcome) :
    ∀ (fuel a : ℕ) (e : String),
    executeWithRetryAux (fun n => collapseOutcome (behavior n)) a fuel e =
    executeWithRetryAux behavior a fuel e := by
  intro fuel
  induction fuel with
  | zero => intro a e; rfl
  | succ fuel ih =>
    intro a e
    rcases hb : behavior a with r | m
    · have hcb : collapseOutcome (AttemptOutcome.returned r) = .returned r := rfl
      simp only [executeWithRetryAux, hb, hcb]
      split
      · rfl
      · rw [ih]
    · have hcb : collapseOutcome (AttemptOutcome.thrown m) =
          .returned { success := false, error := some m } := rfl
      simp only [executeWithRetryAux, hb, hcb]
      have hnot : ¬(({ success := false, error := some m } : OrderResult).success = true) := by
        simp
      rw [if_neg hnot]
      have hmsg : strOr ({ success := false, error := some m } : OrderResult).error
          "Unknown error" = if m = "" then "Unknown error" else m := rfl
      rw [hmsg, ih]

end Executor

/-! ## Supporting lemmas: batch composition of executeOrders -/

namespace Executor

/-- Pointwise combination of two `ExecutionResult`s: success conjunction,
list concatenation. -/
def mergeResult (a b : ExecutionResult) : ExecutionResult :=
  ⟨a.success && b.success, a.executedOrders ++ b.executedOrders,
   a.rejectedOrders ++ b.rejectedOrders, a.errors ++ b.errors⟩

/-- Merging with the fresh result is the identity. -/
lemma mergeResult_empty (a : ExecutionResult) : mergeResult a emptyResult = a := by
  rcases a with ⟨s, e, r, er⟩
  simp [mergeResult, emptyResult]

/-- `mergeResult` is associative. -/
lemma mergeResult_assoc (a b c : ExecutionResult) :
    mergeResult (mergeResult a b) c = mergeResult a (mergeResult b c) := by
  simp [mergeResult, Bool.and_assoc, List.append_assoc]

/-- One loop iteration only appends to the accumulated result, so it commutes
with merging a prefix result. -/
lemma execStep_merge (dry : Bool) (pos : List Position) (tot : ℚ)
    (md : List (String × MarketEntry)) (now : ℤ) (r r₀ : ExecutionResult)
    (st : ExecState) (ob : OrderRequest × (ℕ → AttemptOutcome)) :
    execStep dry pos tot md now (mergeResult r r₀, st) ob =
    (mergeResult r (execStep dry pos tot md now (r₀, st) ob).1,
     (execStep dry pos tot md now (r₀, st) ob).2) := by
  unfold execStep
  dsimp only
  split
  · simp [mergeResult, List.append_assoc]
  · split
    · simp [mergeResult, List.append_assoc]
    · split
      · simp [mergeResult, List.append_assoc]
      · split
        · simp [mergeResult, List.append_assoc]
        · simp [mergeResult, List.append_assoc, Bool.and_false]

/-- Folding the loop from an arbitrary accumulated result factors through the
fold from the fresh result. -/
lemma executeOrders_foldl_merge (dry : Bool) (pos : List Position) (tot : ℚ)
    (md : List (String × MarketEntry)) (now : ℤ) :
    ∀ (l : List (OrderRequest × (ℕ → AttemptOutcome))) (r : ExecutionResult)
      (st : ExecState),
    l.foldl (execStep dry pos tot md now) (r, st) =
    (mergeResult r (l.foldl (execStep dry pos tot md now) (emptyResult, st)).1,
     (l.foldl (execStep dry pos tot md now) (emptyResult, st)).2) := by
  intro l
  induction l with
  | nil =>
    intro r st
    simp [mergeResult_empty]
  | cons x l ih =>
    intro r st
    rw [List.foldl_cons, List.foldl_cons]
    rw [show (r, st) = (mergeResult r emptyResult, st) by rw [mergeResult_empty]]
    rw [execStep_merge]
    rw [ih]
    conv_rhs =>
      rw [show execStep dry pos tot md now (emptyResult, st) x =
        ((execStep dry pos tot md now (emptyResult, st) x).1,
         (execStep dry pos tot md now (emptyResult, st) x).2) from rfl]
      rw [ih]
    rw [mergeResult_assoc]

/-- Batch decomposition: running `executeOrders` on `l₁ ++ l₂` equals running
it on `l₁`, then on `l₂` from the resulting state, and combining the results. -/
lemma executeOrders_append (dry : Bool) (pos : List Position) (tot : ℚ)
    (md : List (String × MarketEntry)) (now : ℤ)
    (l₁ l₂ : List (OrderRequest × (ℕ → AttemptOutcome))) (st : ExecState) :
    executeOrders dry pos tot md now (l₁ ++ l₂) st =
    (mergeResult (executeOrders dry pos tot md now l₁ st).1
       (executeOrders dry pos tot md now l₂ (executeOrders dry pos tot md now l₁ st).2).1,
     (executeOrders dry pos tot md now l₂ (executeOrders dry pos tot md now l₁ st).2).2) := by
  unfold executeOrders
  rw [List.foldl_append]
  rw [show (List.foldl (execStep dry pos tot md now) (emptyResult, st) l₁) =
    ((List.foldl (execStep dry pos tot md now) (emptyResult, st) l₁).1,
     (List.foldl (execStep dry pos tot md now) (emptyResult, st) l₁).2) from rfl]
  rw [executeOrders_foldl_merge]

end Executor

namespace Executor

/-- When all three attempts fail, the retry loop surfaces the last attempt's
message after waiting 1000 ms and 2000 ms. -/
lemma executeWithRetry_all_fail (behavior : ℕ → AttemptOutcome) (m1 m2 m3 : String)
    (h1 : effMsg (behavior 1) = some m1) (h2 : effMsg (behavior 2) = some m2)
    (h3 : effMsg (behavior 3) = some m3) :
    executeWithRetry behavior =
      ⟨⟨false, none, none, none, some m3⟩, [1000, 2000], 3⟩ := by
  have e1 : executeWithRetryAux behavior 1 3 "" =
      retryFailStep (executeWithRetryAux behavior 2 2 m1) 1 2 :=
    executeWithRetryAux_fail_step behavior 1 2 "" m1 h1
  have e2 : executeWithRetryAux behavior 2 2 m1 =
      retryFailStep (executeWithRetryAux behavior 3 1 m2) 2 1 :=
    executeWithRetryAux_fail_step behavior 2 1 m1 m2 h2
  have e3 : executeWithRetryAux behavior 3 1 m2 =
      retryFailStep (executeWithRetryAux behavior 4 0 m3) 3 0 :=
    executeWithRetryAux_fail_step behavior 3 0 m2 m3 h3
  have e0 : executeWithRetryAux behavior 4 0 m3 =
      ⟨⟨false, none, none, none, some m3⟩, [], 0⟩ := by
    simp only [executeWithRetryAux]
    rw [if_neg (effMsg_ne_empty _ _ h3)]
  show executeWithRetryAux behavior 1 3 "" = _
  rw [e1, e2, e3, e0]
  rfl

/-- A single order that passes the price and risk gates but fails every
attempt produces one error entry, feeds `recordError`, bumps only the error
counter, and marks the batch failed. -/
lemma executeOrders_failed_single (pos : List Position) (tot : ℚ)
    (md : List (String × MarketEntry)) (now : ℤ) (order : OrderRequest)
    (behavior : ℕ → AttemptOutcome) (m1 m2 m3 : String) (st : ExecState)
    (hmp : ¬(resolveMarkPrice md order.coin = 0))
    (hallow : (RiskEngine.checkOrder st.risk order pos tot
      (resolveMarkPrice md order.coin) now).allowed = true)
    (h1 : effMsg (behavior 1) = some m1) (h2 : effMsg (behavior 2) = some m2)
    (h3 : effMsg (behavior 3) = some m3) :
    executeOrders false pos tot md now [(order, behavior)] st =
    (⟨false, [], [], [m3]⟩,
     ⟨RiskEngine.recordError st.risk now,
      ⟨st.counters.execCount, st.counters.rejectCount, st.counters.errorCount + 1⟩⟩) := by
  have hstep : executeOrders false pos tot md now [(order, behavior)] st =
      execStep false pos tot md now (emptyResult, st) (order, behavior) := rfl
  rw [hstep]
  unfold execStep
  dsimp only
  rw [if_neg hmp]
  simp only [hallow, Bool.not_true, Bool.false_eq_true, if_false]
  rw [executeWithRetry_all_fail behavior m1 m2 m3 h1 h2 h3]
  have hm3 : strOr (some m3) "Unknown error" = m3 := by
    show (if m3 = "" then "Unknown error" else m3) = m3
    rw [if_neg (effMsg_ne_empty _ _ h3)]
  simp [emptyResult, hm3]

end Executor

/-! ## Claim C7 -/

/-- C7: `executeWithRetry` makes at most 3 attempts, waits
`retryDelayMs * 2^(attempt-1)` between attempts and not after the final one,
treats a thrown exception exactly like a returned failure, and surfaces the
last attempt's error ([1000 ms, 2000 ms] waits when all three fail); and
`executeOrders` decomposes over the batch, so a fully-failing order still
lets the remaining orders run from the updated state, with the batch marked
failed. -/
theorem claim_C7 :
    (∀ behavior : ℕ → AttemptOutcome,
       (Executor.executeWithRetry behavior).attempts ≤ Executor.maxRetries ∧
       (Executor.executeWithRetry behavior).delays =
         (List.range ((Executor.executeWithRetry behavior).attempts - 1)).map
           (fun k => Executor.retryDelayMs * 2 ^ k) ∧
       Executor.executeWithRetry (fun n => Executor.collapseOutcome (behavior n)) =
         Executor.executeWithRetry behavior) ∧
    (∀ (behavior : ℕ → AttemptOutcome) (m1 m2 m3 : String),
       Executor.effMsg (behavior 1) = some m1 →
       Executor.effMsg (behavior 2) = some m2 →
       Executor.effMsg (behavior 3) = some m3 →
       Executor.executeWithRetry behavior =
         ⟨⟨false, none, none, none, some m3⟩, [1000, 2000], 3⟩) ∧
    (∀ (dry : Bool) (pos : List Position) (tot : ℚ)
       (md : List (String × MarketEntry)) (now : ℤ)
       (l₁ l₂ : List (OrderRequest × (ℕ → AttemptOutcome)))
       (st : Executor.ExecState),
       Executor.executeOrders dry pos tot md now (l₁ ++ l₂) st =
       (Executor.mergeResult (Executor.executeOrders dry pos tot md now l₁ st).1
          (Executor.executeOrders dry pos tot md now l₂
            (Executor.executeOrders dry pos tot md now l₁ st).2).1,
        (Executor.executeOrders dry pos tot md now l₂
          (Executor.executeOrders dry pos tot md now l₁ st).2).2)) ∧
    (∀ (pos : List Position) (tot : ℚ) (md : List (String × MarketEntry))
       (now : ℤ) (order : OrderRequest) (behavior : ℕ → AttemptOutcome)
       (m1 m2 m3 : String) (st : Executor.ExecState),
       ¬(Executor.resolveMarkPrice md order.coin = 0) →
       (RiskEngine.checkOrder st.risk order pos tot
         (Executor.resolveMarkPrice md order.coin) now).allowed = true →
       Executor.effMsg (behavior 1) = some m1 →
       Executor.effMsg (behavior 2) = some m2 →
       Executor.effMsg (behavior 3) = some m3 →
       Executor.executeOrders false pos tot md now [(order, behavior)] st =
       (⟨false, [], [], [m3]⟩,
        ⟨RiskEngine.recordError st.risk now,
         ⟨st.counters.execCount, st.counters.rejectCount,
          st.counters.errorCount + 1⟩⟩)) := by
  refine ⟨?_, ?_, ?_, ?_⟩
  · intro behavior
    have hspec := Executor.executeWithRetryAux_spec behavior Executor.maxRetries 1
      (by decide) ""
    refine ⟨hspec.1, ?_,
      Executor.executeWithRetryAux_collapse behavior Executor.maxRetries 1 ""⟩
    rw [show Executor.executeWithRetry behavior =
      Executor.executeWithRetryAux behavior 1 Executor.maxRetries "" from rfl]
    rw [hspec.2.2]
    apply List.map_congr_left
    intro k _
    norm_num
  · exact Executor.executeWithRetry_all_fail
  · exact fun dry pos tot md now l₁ l₂ st =>
      Executor.executeOrders_append dry pos tot md now l₁ l₂ st
  · exact Executor.executeOrders_failed_single

/-- Witness for C7: the always-throwing behavior fails all three attempts with
waits [1000, 2000] and surfaces "boom"; a single such order errors the batch. -/
theorem claim_C7_witness :
    Executor.executeWithRetry (fun _ => AttemptOutcome.thrown "boom") =
      ⟨⟨false, none, none, none, some "boom"⟩, [1000, 2000], 3⟩ ∧
    Executor.executeOrders false [] 0 [("BTC", ⟨1, 1⟩)] 0
        [(⟨"BTC", .buy, 1, .IOC, true, none⟩,
          fun _ => AttemptOutcome.thrown "boom")]
        ⟨⟨10, 1000000, 0, false, false, [], ⟨0, 0⟩⟩, ⟨0, 0, 0⟩⟩ =
      (⟨false, [], [], ["boom"]⟩,
       ⟨RiskEngine.recordError
          (⟨⟨10, 1000000, 0, false, false, [], ⟨0, 0⟩⟩,
            ⟨0, 0, 0⟩⟩ : Executor.ExecState).risk 0,
        ⟨(⟨⟨10, 1000000, 0, false, false, [], ⟨0, 0⟩⟩,
            ⟨0, 0, 0⟩⟩ : Executor.ExecState).counters.execCount,
         (⟨⟨10, 1000000, 0, false, false, [], ⟨0, 0⟩⟩,
            ⟨0, 0, 0⟩⟩ : Executor.ExecState).counters.rejectCount,
         (⟨⟨10, 1000000, 0, false, false, [], ⟨0, 0⟩⟩,
            ⟨0, 0, 0⟩⟩ : Executor.ExecState).counters.errorCount + 1⟩⟩) :=
  ⟨claim_C7.2.1 (fun _ => AttemptOutcome.thrown "boom") "boom" "boom" "boom"
     rfl rfl rfl,
   claim_C7.2.2.2 [] 0 [("BTC", ⟨1, 1⟩)] 0 ⟨"BTC", .buy, 1, .IOC, true, none⟩
     (fun _ => AttemptOutcome.thrown "boom") "boom" "boom" "boom"
     ⟨⟨10, 1000000, 0, false, false, [], ⟨0, 0⟩⟩, ⟨0, 0, 0⟩⟩
     (by decide) (by decide) rfl rfl rfl⟩

/-! ## Claim C8 (corrected) -/

/-- Counterexample to C8 as stated: the missing-market-price skip DOES
increment the Executor's rejectCount (from 0 to 1), contrary to the claim
that neither rejectCount nor errorCount is incremented for it. -/
theorem claim_C8_counterexample :
    (Executor.executeOrders false [] 0 [] 0
        [(⟨"BTC", .buy, 1, .IOC, false, none⟩, fun _ => AttemptOutcome.thrown "x")]
        ⟨⟨10, 1000000, 0, false, false, [], ⟨0, 0⟩⟩, ⟨0, 0, 0⟩⟩).2.counters.rejectCount = 1 ∧
    (⟨⟨10, 1000000, 0, false, false, [], ⟨0, 0⟩⟩,
      ⟨0, 0, 0⟩⟩ : Executor.ExecState).counters.rejectCount = 0 := by
  constructor <;> rfl

/-- C8 (amended): when the mark price resolves to zero/missing, the order is
skipped with reason "No market price available", the RiskEngine state is
untouched (no checkOrder effects, no recordExecution, no recordError),
execCount and errorCount are unchanged and the batch stays successful — but
the skip is recorded among rejectedOrders and rejectCount IS incremented; the
outcome does not depend on the exchange behavior. -/
theorem claim_C8 :
    ∀ (dry : Bool) (pos : List Position) (tot : ℚ)
      (md : List (String × MarketEntry)) (now : ℤ) (order : OrderRequest)
      (behavior : ℕ → AttemptOutcome) (st : Executor.ExecState),
      Executor.resolveMarkPrice md order.coin = 0 →
      Executor.executeOrders dry pos tot md now [(order, behavior)] st =
      (⟨true, [], [(order, "No market price available")], []⟩,
       ⟨st.risk, ⟨st.counters.execCount, st.counters.rejectCount + 1,
         st.counters.errorCount⟩⟩) := by
  intro dry pos tot md now order behavior st hmp
  have hstep : Executor.executeOrders dry pos tot md now [(order, behavior)] st =
      Executor.execStep dry pos tot md now (Executor.emptyResult, st) (order, behavior) := rfl
  rw [hstep]
  unfold Executor.execStep
  dsimp only
  rw [if_pos hmp]
  simp [Executor.emptyResult]

/-- Witness for C8 (amended): a single BTC order against empty market data. -/
theorem claim_C8_witness :
    Executor.executeOrders false [] 0 [] 0
        [(⟨"BTC", .buy, 1, .IOC, false, none⟩, fun _ => AttemptOutcome.thrown "x")]
        ⟨⟨10, 1000000, 0, false, false, [], ⟨0, 0⟩⟩, ⟨0, 0, 0⟩⟩ =
      (⟨true, [], [(⟨"BTC", .buy, 1, .IOC, false, none⟩, "No market price available")], []⟩,
       ⟨(⟨⟨10, 1000000, 0, false, false, [], ⟨0, 0⟩⟩,
           ⟨0, 0, 0⟩⟩ : Executor.ExecState).risk,
        ⟨(⟨⟨10, 1000000, 0, false, false, [], ⟨0, 0⟩⟩,
            ⟨0, 0, 0⟩⟩ : Executor.ExecState).counters.execCount,
         (⟨⟨10, 1000000, 0, false, false, [], ⟨0, 0⟩⟩,
            ⟨0, 0, 0⟩⟩ : Executor.ExecState).counters.rejectCount + 1,
         (⟨⟨10, 1000000, 0, false, false, [], ⟨0, 0⟩⟩,
            ⟨0, 0, 0⟩⟩ : Executor.ExecState).counters.errorCount⟩⟩) :=
  claim_C8 false [] 0 [] 0 ⟨"BTC", .buy, 1, .IOC, false, none⟩
    (fun _ => AttemptOutcome.thrown "x")
    ⟨⟨10, 1000000, 0, false, false, [], ⟨0, 0⟩⟩, ⟨0, 0, 0⟩⟩ rfl

/-! ## Claim C9 -/

/-- C9: in dry-run mode, an order that passes the risk check is not sent to
the exchange (the result does not depend on the exchange behavior), a
synthesized successful OrderResult is appended, `recordExecution` is still
applied to the instrument (cooldown as in live mode), and the exec counter is
incremented. -/
theorem claim_C9 :
    ∀ (pos : List Position) (tot : ℚ) (md : List (String × MarketEntry)) (now : ℤ)
      (order : OrderRequest) (behavior : ℕ → AttemptOutcome) (st : Executor.ExecState),
      ¬(Executor.resolveMarkPrice md order.coin = 0) →
      (RiskEngine.checkOrder st.risk order pos tot
        (Executor.resolveMarkPrice md order.coin) now).allowed = true →
      Executor.executeOrders true pos tot md now [(order, behavior)] st =
      (⟨true, [⟨true, some ("dryrun-" ++ toString now), some order.size, none, none⟩], [], []⟩,
       ⟨RiskEngine.recordExecution st.risk order.coin now,
        ⟨st.counters.execCount + 1, st.counters.rejectCount, st.counters.errorCount⟩⟩) := by
  intro pos tot md now order behavior st hmp hallow
  have hstep : Executor.executeOrders true pos tot md now [(order, behavior)] st =
      Executor.execStep true pos tot md now (Executor.emptyResult, st) (order, behavior) := rfl
  rw [hstep]
  unfold Executor.execStep
  dsimp only
  rw [if_neg hmp]
  simp only [hallow, Bool.not_true, Bool.false_eq_true, if_false, if_true]
  simp [Executor.emptyResult]

/-- Witness for C9: dry-run of a reduce-only BTC order at mark price 1 from a
clean state. -/
theorem claim_C9_witness :
    Executor.executeOrders true [] 0 [("BTC", ⟨1, 1⟩)] 0
        [(⟨"BTC", .buy, 1, .IOC, true, none⟩, fun _ => AttemptOutcome.thrown "x")]
        ⟨⟨10, 1000000, 0, false, false, [], ⟨0, 0⟩⟩, ⟨0, 0, 0⟩⟩ =
      (⟨true, [⟨true, some ("dryrun-" ++ toString (0 : ℤ)),
          some (⟨"BTC", .buy, 1, .IOC, true, none⟩ : OrderRequest).size, none, none⟩], [], []⟩,
       ⟨RiskEngine.recordExecution
          (⟨⟨10, 1000000, 0, false, false, [], ⟨0, 0⟩⟩,
            ⟨0, 0, 0⟩⟩ : Executor.ExecState).risk "BTC" 0,
        ⟨(⟨⟨10, 1000000, 0, false, false, [], ⟨0, 0⟩⟩,
            ⟨0, 0, 0⟩⟩ : Executor.ExecState).counters.execCount + 1,
         (⟨⟨10, 1000000, 0, false, false, [], ⟨0, 0⟩⟩,
            ⟨0, 0, 0⟩⟩ : Executor.ExecState).counters.rejectCount,
         (⟨⟨10, 1000000, 0, false, false, [], ⟨0, 0⟩⟩,
            ⟨0, 0, 0⟩⟩ : Executor.ExecState).counters.errorCount⟩⟩) :=
  claim_C9 [] 0 [("BTC", ⟨1, 1⟩)] 0 ⟨"BTC", .buy, 1, .IOC, true, none⟩
    (fun _ => AttemptOutcome.thrown "x")
    ⟨⟨10, 1000000, 0, false, false, [], ⟨0, 0⟩⟩, ⟨0, 0, 0⟩⟩
    (by decide) (by decide)

/-! ## Supporting lemmas: counter and list accounting -/

namespace Executor

/-- Sum of the three execution counters. -/
def Counters.total (c : Counters) : ℕ :=
  c.execCount + c.rejectCount + c.errorCount

/-- Every loop iteration increments exactly one of the three counters. -/
lemma execStep_counters_cases (dry : Bool) (pos : List Position) (tot : ℚ)
    (md : List (String × MarketEntry)) (now : ℤ)
    (acc : ExecutionResult × ExecState) (ob : OrderRequest × (ℕ → AttemptOutcome)) :
    (execStep dry pos tot md now acc ob).2.counters =
      ⟨acc.2.counters.execCount + 1, acc.2.counters.rejectCount,
       acc.2.counters.errorCount⟩ ∨
    (execStep dry pos tot md now acc ob).2.counters =
      ⟨acc.2.counters.execCount, acc.2.counters.rejectCount + 1,
       acc.2.counters.errorCount⟩ ∨
    (execStep dry pos tot md now acc ob).2.counters =
      ⟨acc.2.counters.execCount, acc.2.counters.rejectCount,
       acc.2.counters.errorCount + 1⟩ := by
  unfold execStep
  dsimp only
  split
  · right; left; rfl
  · split
    · right; left; rfl
    · split
      · left; rfl
      · split
        · left; rfl
        · right; right; rfl

/-- Every loop iteration appends exactly one entry across the three lists. -/
lemma execStep_lists_len (dry : Bool) (pos : List Position) (tot : ℚ)
    (md : List (String × MarketEntry)) (now : ℤ)
    (acc : ExecutionResult × ExecState) (ob : OrderRequest × (ℕ → AttemptOutcome)) :
    (execStep dry pos tot md now acc ob).1.executedOrders.length +
    (execStep dry pos tot md now acc ob).1.rejectedOrders.length +
    (execStep dry pos tot md now acc ob).1.errors.length =
    acc.1.executedOrders.length + acc.1.rejectedOrders.length +
    acc.1.errors.length + 1 := by
  unfold execStep
  dsimp only
  split
  · simp only [List.length_append, List.length_singleton]; omega
  · split
    · simp only [List.length_append, List.length_singleton]; omega
    · split
      · simp only [List.length_append, List.length_singleton]; omega
      · split
        · simp only [List.length_append, List.length_singleton]; omega
        · simp only [List.length_append, List.length_singleton]; omega

/-- Every loop iteration preserves "successful iff no errors". -/
lemma execStep_success_iff (dry : Bool) (pos : List Position) (tot : ℚ)
    (md : List (String × MarketEntry)) (now : ℤ)
    (acc : ExecutionResult × ExecState) (ob : OrderRequest × (ℕ → AttemptOutcome))
    (h : acc.1.success = true ↔ acc.1.errors = []) :
    (execStep dry pos tot md now acc ob).1.success = true ↔
    (execStep dry pos tot md now acc ob).1.errors = [] := by
  unfold execStep
  dsimp only
  split
  · exact h
  · split
    · exact h
    · split
      · exact h
      · split
        · exact h
        · simp

/-- Invariant of the execution loop: counter sum and list accounting grow by
one per order, and success tracks error-freeness. -/
lemma executeOrders_foldl_inv (dry : Bool) (pos : List Position) (tot : ℚ)
    (md : List (String × MarketEntry)) (now : ℤ) :
    ∀ (l : List (OrderRequest × (ℕ → AttemptOutcome))) (r : ExecutionResult)
      (st : ExecState), (r.success = true ↔ r.errors = []) →
    ((l.foldl (execStep dry pos tot md now) (r, st)).2.counters.total =
       st.counters.total + l.length ∧
     (l.foldl (execStep dry pos tot md now) (r, st)).1.executedOrders.length +
     (l.foldl (execStep dry pos tot md now) (r, st)).1.rejectedOrders.length +
     (l.foldl (execStep dry pos tot md now) (r, st)).1.errors.length =
       r.executedOrders.length + r.rejectedOrders.length + r.errors.length + l.length ∧
     ((l.foldl (execStep dry pos tot md now) (r, st)).1.success = true ↔
      (l.foldl (execStep dry pos tot md now) (r, st)).1.errors = [])) := by
  intro l
  induction l with
  | nil =>
    intro r st h
    exact ⟨by simp, by simp, h⟩
  | cons x l ih =>
    intro r st h
    rw [List.foldl_cons]
    rw [show execStep dry pos tot md now (r, st) x =
      ((execStep dry pos tot md now (r, st) x).1,
       (execStep dry pos tot md now (r, st) x).2) from rfl]
    obtain ⟨ih1, ih2, ih3⟩ := ih (execStep dry pos tot md now (r, st) x).1
      (execStep dry pos tot md now (r, st) x).2
      (execStep_success_iff dry pos tot md now (r, st) x h)
    refine ⟨?_, ?_, ih3⟩
    · rw [ih1]
      have hc := execStep_counters_cases dry pos tot md now (r, st) x
      have hlen : (x :: l).length = l.length + 1 := rfl
      rw [hlen]
      rcases hc with hc | hc | hc <;>
        (rw [hc]; unfold Counters.total; dsimp only; omega)
    · rw [ih2]
      have hl := execStep_lists_len dry pos tot md now (r, st) x
      dsimp only at hl ⊢
      simp only [List.length_cons]
      omega

end Executor

/-! ## Claim C10 -/

/-- C10: each order processed by `executeOrders` increments exactly one of the
three counters (so their sum grows by the batch length), the returned
executedOrders, rejectedOrders and errors lists together account for every
order of the batch, and the returned success flag is true iff the errors list
is empty. -/
theorem claim_C10 :
    (∀ (dry : Bool) (pos : List Position) (tot : ℚ)
       (md : List (String × MarketEntry)) (now : ℤ)
       (acc : Executor.ExecutionResult × Executor.ExecState)
       (ob : OrderRequest × (ℕ → AttemptOutcome)),
       (Executor.execStep dry pos tot md now acc ob).2.counters =
         ⟨acc.2.counters.execCount + 1, acc.2.counters.rejectCount,
          acc.2.counters.errorCount⟩ ∨
       (Executor.execStep dry pos tot md now acc ob).2.counters =
         ⟨acc.2.counters.execCount, acc.2.counters.rejectCount + 1,
          acc.2.counters.errorCount⟩ ∨
       (Executor.execStep dry pos tot md now acc ob).2.counters =
         ⟨acc.2.counters.execCount, acc.2.counters.rejectCount,
          acc.2.counters.errorCount + 1⟩) ∧
    (∀ (dry : Bool) (pos : List Position) (tot : ℚ)
       (md : List (String × MarketEntry)) (now : ℤ)
       (orders : List (OrderRequest × (ℕ → AttemptOutcome)))
       (st : Executor.ExecState),
       (Executor.executeOrders dry pos tot md now orders st).2.counters.total =
         st.counters.total + orders.length ∧
       (Executor.executeOrders dry pos tot md now orders st).1.executedOrders.length +
       (Executor.executeOrders dry pos tot md now orders st).1.rejectedOrders.length +
       (Executor.executeOrders dry pos tot md now orders st).1.errors.length =
         orders.length ∧
       ((Executor.executeOrders dry pos tot md now orders st).1.success = true ↔
        (Executor.executeOrders dry pos tot md now orders st).1.errors = [])) := by
  refine ⟨Executor.execStep_counters_cases, ?_⟩
  intro dry pos tot md now orders st
  have hinv := Executor.executeOrders_foldl_inv dry pos tot md now orders
    Executor.emptyResult st (by simp [Executor.emptyResult])
  refine ⟨hinv.1, ?_, hinv.2.2⟩
  have h2 := hinv.2.1
  simpa [Executor.emptyResult] using h2
